import Mathlib

/-
Verification of the contact-list formatter (src/main.py).

The embedding models the pure core of the program:
  * format_phone : regex substitution with the pattern
      (\+7|8)?[\s-]*[( ]?(\d{3})[ -)]?[\s-]*(\d{3})[\s-]*(\d{2})[\s-]*(\d{2})(\s*\(?(доб.)\s*(\d{4})\)?)?
    replaced by "+7(\2)\3-\4-\5 \7\8" (re.sub semantics: leftmost match,
    greedy quantifiers with backtracking, ALL non-overlapping matches
    replaced, unmatched groups expand to the empty string).
  * format_name : " ".join(...).split() with 3-token padding.
  * check_and_update_duplicate / merging_contact_lines / removing_duplicates :
    the duplicate scan, the field merge, and the deletion step.  Python
    exceptions (IndexError) are modelled by returning the state reached so
    far together with an `Option String` error marker.
Character classes \s and \d are modelled over the ASCII range, which covers
all inputs considered here.  List-cell access uses `getD`; the theorems
restrict to rows wide enough that the Python indexing would also succeed,
except where an IndexError is exactly the behaviour being modelled.
-/

/- Python's \s (ASCII part). -/
def isPySpace (c : Char) : Bool :=
  c == ' ' || c == '\t' || c == '\n' || c == '\x0b' || c == '\x0c' || c == '\r'

/- The character class [\s-]. -/
def isSep (c : Char) : Bool :=
  isPySpace c || c == '-'

/- Backtracking choice: first alternative whose continuation succeeds. -/
def firstSome : List α → (α → Option β) → Option β
  | [], _ => none
  | a :: rest, k =>
    match k a with
    | some b => some b
    | none => firstSome rest k

/- Greedy star over a character class: remainders to try, longest consumption first. -/
def starTries (p : Char → Bool) (cs : List Char) : List (List Char) :=
  (List.range ((cs.takeWhile p).length + 1)).map
    (fun k => cs.drop ((cs.takeWhile p).length - k))

/- Greedy optional single character from a class. -/
def optTries (p : Char → Bool) (cs : List Char) : List (List Char) :=
  match cs with
  | [] => [[]]
  | c :: rest => if p c then [rest, c :: rest] else [c :: rest]

/- The optional group (\+7|8)? : alternatives in regex order, then skipping. -/
def cc7Tries (cs : List Char) : List (List Char) :=
  match cs with
  | '+' :: '7' :: rest => [rest, '+' :: '7' :: rest]
  | '8' :: rest => [rest, '8' :: rest]
  | _ => [cs]

/- Exactly n ASCII digits. -/
def takeDigits : Nat → List Char → Option (List Char × List Char)
  | 0, cs => some ([], cs)
  | _ + 1, [] => none
  | n + 1, c :: cs =>
    if c.isDigit then (takeDigits n cs).map (fun p => (c :: p.1, p.2)) else none

/- Result of one match of the phone pattern: the capture groups used by the
replacement template and the remainder of the input after the match. -/
structure MatchRes where
  g2 : List Char
  g3 : List Char
  g4 : List Char
  g5 : List Char
  ext : Option (List Char × List Char)
  rest : List Char
deriving DecidableEq

/- The literal part (доб.) of the extension group: the letters д о б
followed by the unescaped regex dot, which matches any character except a
newline.  Returns the character matched by the dot and the remainder. -/
def extTail : List Char → Option (Char × List Char)
  | 'д' :: 'о' :: 'б' :: c :: b2 => if c = '\n' then none else some (c, b2)
  | _ => none

/- The optional extension group (\s*\(?(доб.)\s*(\d{4})\)?)?.
Returns (group 7, group 8, remainder). -/
def extMatch (cs : List Char) : Option (List Char × List Char × List Char) :=
  firstSome (starTries isPySpace cs) (fun a =>
    firstSome (optTries (fun c => c == '(') a) (fun b =>
      match extTail b with
      | some (c, b2) =>
        firstSome (starTries isPySpace b2) (fun d =>
          (takeDigits 4 d).bind (fun p8 =>
            firstSome (optTries (fun c2 => c2 == ')') p8.2) (fun f =>
              some (['д', 'о', 'б', c], p8.1, f))))
      | none => none))

/- Attempt to match the whole phone pattern at the start of cs. -/
def matchAt (cs : List Char) : Option MatchRes :=
  firstSome (cc7Tries cs) (fun s1 =>
    firstSome (starTries isSep s1) (fun s2 =>
      firstSome (optTries (fun c => c == '(' || c == ' ') s2) (fun s3 =>
        (takeDigits 3 s3).bind (fun p2 =>
          firstSome (optTries (fun c => ' ' ≤ c && c ≤ ')') p2.2) (fun s4 =>
            firstSome (starTries isSep s4) (fun s5 =>
              (takeDigits 3 s5).bind (fun p3 =>
                firstSome (starTries isSep p3.2) (fun s6 =>
                  (takeDigits 2 s6).bind (fun p4 =>
                    firstSome (starTries isSep p4.2) (fun s7 =>
                      (takeDigits 2 s7).bind (fun p5 =>
                        match extMatch p5.2 with
                        | some (g7, g8, r) =>
                          some ⟨p2.1, p3.1, p4.1, p5.1, some (g7, g8), r⟩
                        | none =>
                          some ⟨p2.1, p3.1, p4.1, p5.1, none, p5.2⟩)))))))))))

/- The template "+7(\2)\3-\4-\5 \7\8"; unmatched groups become empty. -/
def replacement (m : MatchRes) : List Char :=
  "+7(".data ++ m.g2 ++ ")".data ++ m.g3 ++ "-".data ++ m.g4 ++ "-".data ++ m.g5 ++
    " ".data ++
    (match m.ext with
     | some (g7, g8) => g7 ++ g8
     | none => [])

/- re.sub scanning: replace the leftmost match, continue after it; characters
not starting a match are copied.  Each match consumes at least one character,
so fuel equal to the input length suffices. -/
def subAllGo : Nat → List Char → List Char
  | 0, cs => cs
  | _ + 1, [] => []
  | fuel + 1, c :: cs =>
    match matchAt (c :: cs) with
    | some m => replacement m ++ subAllGo fuel m.rest
    | none => c :: subAllGo fuel cs

/- format_phone from src/main.py. -/
def format_phone (phone : String) : String :=
  ⟨subAllGo phone.data.length phone.data⟩

/- Does the pattern match at some position of cs? -/
def hasMatch : List Char → Bool
  | [] => (matchAt []).isSome
  | c :: cs => (matchAt (c :: cs)).isSome || hasMatch cs

/- pat occurs at the start of s. -/
def startsWithSeg : List Char → List Char → Bool
  | [], _ => true
  | _ :: _, [] => false
  | p :: ps, c :: cs => p == c && startsWithSeg ps cs

/- pat occurs somewhere inside s. -/
def containsSeg (pat : List Char) : List Char → Bool
  | [] => startsWithSeg pat []
  | c :: cs => startsWithSeg pat (c :: cs) || containsSeg pat cs

/- Python str.split(): tokens separated by runs of whitespace, no empties. -/
def wsTokensGo : List Char → List Char → List (List Char)
  | [], acc => if acc.isEmpty then [] else [acc.reverse]
  | c :: cs, acc =>
    if isPySpace c then
      if acc.isEmpty then wsTokensGo cs [] else acc.reverse :: wsTokensGo cs []
    else wsTokensGo cs (c :: acc)

def wsTokens (s : String) : List String :=
  (wsTokensGo s.data []).map String.mk

/- Python " ".join(...). -/
def joinSp : List String → String
  | [] => ""
  | [s] => s
  | s :: rest => s ++ " " ++ joinSp rest

/- format_name from src/main.py: join with spaces, re-split on whitespace,
take tokens 0..2 with "" where the token is missing (the try/except). -/
def format_name (old_full_name : List String) : List String :=
  (List.range 3).map (fun i => (wsTokens (joinSp old_full_name)).getD i "")

/- The clamping of start_column in merging_contact_lines
(None or negative becomes 0). -/
def clampStart (start_column : Option Int) : Int :=
  match start_column with
  | none => 0
  | some s => if s < 0 then 0 else s

/- The clamping of end_column in merging_contact_lines
(None or larger than the origin row's width becomes the width). -/
def clampEnd (end_column : Option Int) (w : Nat) : Int :=
  match end_column with
  | none => (w : Int)
  | some e => if e > (w : Int) then (w : Int) else e

/- The merge loop of merging_contact_lines: for each column, if the
duplicate row's cell is non-empty, overwrite the origin row's cell.
Reading contacts_list[row_duplicate][column] out of range is the Python
IndexError, modelled by stopping with an error and the state reached. -/
def mergeCols : List (List String) → Nat → Nat → List Nat →
    (List (List String)) × Option String
  | t, _, _, [] => (t, none)
  | t, ro, rd, c :: cs =>
    if rd < t.length then
      if c < (t.getD rd []).length then
        if (t.getD rd []).getD c "" ≠ "" then
          mergeCols (t.set ro ((t.getD ro []).set c ((t.getD rd []).getD c ""))) ro rd cs
        else mergeCols t ro rd cs
      else (t, some "list index out of range")
    else (t, some "list index out of range")

/- merging_contact_lines from src/main.py.  The function always reads
len(contacts_list[row_origin]) while clamping, so an out-of-range origin row
index raises; after clamping, start_column > end_column raises the explicit
IndexError; otherwise the merge loop runs over range(start, end). -/
def merging_contact_lines (contacts_list : List (List String))
    (row_origin row_duplicate : Nat)
    (start_column end_column : Option Int) : (List (List String)) × Option String :=
  if row_origin < contacts_list.length then
    if clampStart start_column >
        clampEnd end_column (contacts_list.getD row_origin []).length then
      (contacts_list, some "start_column must be less than end_column")
    else
      mergeCols contacts_list row_origin row_duplicate
        (List.range' (clampStart start_column).toNat
          ((clampEnd end_column (contacts_list.getD row_origin []).length).toNat -
            (clampStart start_column).toNat))
  else (contacts_list, some "list index out of range")

/- The duplicate test of check_and_update_duplicate (lines 87-90):
same last name, same first name, and equal-or-one-empty patronymic. -/
def dupCondition (r1 r2 : List String) : Bool :=
  (r1.getD 0 "" == r2.getD 0 "") && (r1.getD 1 "" == r2.getD 1 "") &&
    (r1.getD 2 "" == r2.getD 2 "" || (r1.getD 2 "" == "" || r2.getD 2 "" == ""))

/- Scan state: the table being mutated in place, the recorded duplicate row
indices (in append order), and a pending exception. -/
structure ScanSt where
  table : List (List String)
  idxs : List Nat
  err : Option String

/- The inner j-loop of the duplicate scan: compare row i with each later
row j on the current table, merge immediately on a match (columns from 2)
and record j.  An exception from the merge aborts the scan. -/
def innerLoop (i : Nat) : List Nat → ScanSt → ScanSt
  | [], st => st
  | j :: rest, st =>
    if st.err.isSome then st
    else
      if dupCondition (st.table.getD i []) (st.table.getD j []) then
        match merging_contact_lines st.table i j (some 2) none with
        | (t, some e) => { table := t, idxs := st.idxs, err := some e }
        | (t, none) => innerLoop i rest { table := t, idxs := st.idxs ++ [j], err := none }
      else innerLoop i rest st

/- The outer i-loop of the duplicate scan. -/
def outerLoop (n : Nat) : List Nat → ScanSt → ScanSt
  | [], st => st
  | i :: rest, st =>
    if st.err.isSome then st
    else outerLoop n rest (innerLoop i (List.range' (i + 1) (n - (i + 1))) st)

/- Descending sort, as sorted(indexes_to_delete, reverse=True). -/
def insertDesc (x : Nat) : List Nat → List Nat
  | [] => [x]
  | y :: ys => if x ≥ y then x :: y :: ys else y :: insertDesc x ys

def sortDesc (l : List Nat) : List Nat :=
  l.foldr insertDesc []

/- The deletion loop: del contacts_list[index] raises IndexError when the
index is out of range, leaving the deletions done so far in place. -/
def delLoop : List (List String) → List Nat → (List (List String)) × Option String
  | t, [] => (t, none)
  | t, i :: rest => if i < t.length then delLoop (t.eraseIdx i) rest else (t, some "list assignment index out of range")

/- removing_duplicates from src/main.py. -/
def removing_duplicates (contacts_list : List (List String))
    (indexes_to_delete : List Nat) : (List (List String)) × Option String :=
  delLoop contacts_list (sortDesc indexes_to_delete)

/- check_and_update_duplicate from src/main.py: the pairwise scan with
in-place merging, then removal of the recorded duplicate indices.  The
second component carries a Python exception if one was raised. -/
def check_and_update_duplicate (contacts_list : List (List String)) :
    (List (List String)) × Option String :=
  match outerLoop contacts_list.length (List.range contacts_list.length)
      ⟨contacts_list, [], none⟩ with
  | ⟨t, _, some e⟩ => (t, some e)
  | ⟨t, idxs, none⟩ => removing_duplicates t idxs

/- Modelled from the spec: the identity rule for duplicate rows, as worded
in section 4.4 — last names equal, first names equal, and patronymics equal
or at least one of them empty.  Used to compare the code's test against the
spec's wording. -/
def specIsDuplicatePair (r1 r2 : List String) : Prop :=
  r1.getD 0 "" = r2.getD 0 "" ∧ r1.getD 1 "" = r2.getD 1 "" ∧
    (r1.getD 2 "" = r2.getD 2 "" ∨ r1.getD 2 "" = "" ∨ r2.getD 2 "" = "")

/- Modelled from the spec: the merge policy of section 4.4 — every column
from index 2 up gets the duplicate's value when that value is non-empty,
all other columns keep the origin's value. -/
def mergeRowPolicy (orig dup : List String) : List String :=
  (List.range orig.length).map
    (fun c => if 2 ≤ c ∧ dup.getD c "" ≠ "" then dup.getD c "" else orig.getD c "")

/-- Claim C2 (counterexample): the spec says format_phone "8 916 123 45 67"
is exactly "+7(916)123-45-67" with nothing beyond the canonical form, but
the code's replacement template "+7(\2)\3-\4-\5 \7\8" always emits the
space before the extension groups, so the output differs from the claimed
string. -/
theorem claim2_counterexample :
    format_phone "8 916 123 45 67" ≠ "+7(916)123-45-67" := by decide

/-- Claim C2 (amended): format_phone "8 916 123 45 67" returns
"+7(916)123-45-67 " — the canonical form followed by one trailing space,
because the substitution template unconditionally contains the space that
precedes the (here empty) extension groups. -/
theorem claim2_amended_trailing_space :
    format_phone "8 916 123 45 67" = "+7(916)123-45-67 " := by decide

/-- Claim C4 (counterexample): format_phone is not idempotent.  Applying it
twice to "8 916 123 45 67" appends a second trailing space, because the
first application's output still matches the pattern and the template again
adds the space before the empty extension groups. -/
theorem claim4_counterexample :
    format_phone (format_phone "8 916 123 45 67") ≠ format_phone "8 916 123 45 67" := by
  decide

/-- Claim C5 (counterexample): the spec says only the first matching
substring is rewritten and the second of two disjoint matches is left as it
appeared in the input, but re.sub replaces every non-overlapping match: in
"89161234567 89261234567" the original second phone "89261234567" does not
survive anywhere in the output. -/
theorem claim5_counterexample :
    containsSeg "89261234567".data
      (format_phone "89161234567 89261234567").data = false := by decide

/-- Claim C5 (amended): format_phone rewrites every non-overlapping match,
left to right, not only the first; text that is not part of any match is
preserved unchanged.  In the two-phone input the second match restarts at
the separating space, so its digits are regrouped as 892-612-34-56 with a
leftover "7"; surrounding non-matching text ("x", or a whole string with no
match) passes through unchanged. -/
theorem claim5_amended_all_matches_rewritten :
    format_phone "89161234567 89261234567" = "+7(916)123-45-67 +7(892)612-34-56 7" ∧
    format_phone "x89161234567" = "x+7(916)123-45-67 " ∧
    format_phone "no phone here" = "no phone here" := by decide

/-- Claim C6 (counterexample): the spec says only the literal marker "доб."
(with a true period) triggers an extension, but the dot in the pattern is an
unescaped regex dot: the marker "добx" also makes the extension group
participate, with group 7 captured as "добx" and the output carrying the
extension suffix " добx1234". -/
theorem claim6_counterexample :
    matchAt "8 916 123 45 67 добx1234".data =
      some ⟨"916".data, "123".data, "45".data, "67".data,
        some ("добx".data, "1234".data), []⟩ ∧
    "добx".data ≠ "доб.".data ∧
    format_phone "8 916 123 45 67 добx1234" = "+7(916)123-45-67 добx1234" := by decide

/-- Claim C1 (code bug): on a 3-row table whose rows all have the same
last/first name, empty patronymics and pairwise different non-empty phones,
the spec says the table collapses into one row carrying the last row's
phone.  The code instead records duplicate index 2 twice ([1, 2, 2]), and
the reverse-sorted deletion deletes index 2 twice, so the second deletion
raises IndexError and two rows remain. -/
theorem claim1_three_duplicates_crash :
    (check_and_update_duplicate
        [["Ivanov", "Ivan", "", "", "", "p1"], ["Ivanov", "Ivan", "", "", "", "p2"],
          ["Ivanov", "Ivan", "", "", "", "p3"]]).2 =
      some "list assignment index out of range" ∧
    (check_and_update_duplicate
        [["Ivanov", "Ivan", "", "", "", "p1"], ["Ivanov", "Ivan", "", "", "", "p2"],
          ["Ivanov", "Ivan", "", "", "", "p3"]]).1.length = 2 := by decide

/-- Claim C3 (code bug): the duplicate scan can record the same index twice
(three mutually duplicate rows record [1, 2, 2]), and on such a recorded
list the removal step does not remove exactly the rows at the distinct
recorded indices: deleting index 2 a second time raises IndexError, leaving
two rows instead of the claimed 3 − 2 = 1. -/
theorem claim3_removal_crash :
    (outerLoop 3 (List.range 3)
        ⟨[["X", "Y", "", "1"], ["X", "Y", "", "2"], ["X", "Y", "", "3"]], [], none⟩).idxs =
      [1, 2, 2] ∧
    removing_duplicates [["a"], ["b"], ["c"]] [1, 2, 2] =
      ([["a"], ["b"]], some "list assignment index out of range") := by decide

/-- Claim C7: the duplicate scan's comparison (applied by innerLoop to every
pair i < j via dupCondition) holds exactly when the spec's identity rule
holds: equal last names, equal first names, and patronymics equal or at
least one of the two empty. -/
theorem claim7_identity_rule : ∀ r1 r2 : List String,
    dupCondition r1 r2 = true ↔ specIsDuplicatePair r1 r2 := by
  intro r1 r2
  simp [dupCondition, specIsDuplicatePair, and_assoc]

/-- Claim C7 (witness): the identity rule evaluated on a concrete pair with
an empty patronymic on one side. -/
theorem claim7_witness :
    dupCondition ["A", "B", ""] ["A", "B", "C"] = true ↔
      specIsDuplicatePair ["A", "B", ""] ["A", "B", "C"] :=
  claim7_identity_rule ["A", "B", ""] ["A", "B", "C"]

/-- Claim C9: format_name always returns exactly 3 strings — the first three
whitespace tokens of the space-joined input, padded with empty strings —
zero tokens give three empty strings, extra tokens are dropped, and
["Ivanov", "", "Petrovich"] re-flows to ["Ivanov", "Petrovich", ""]. -/
theorem claim9_format_name :
    (∀ old_full_name : List String,
        (format_name old_full_name).length = 3 ∧
        format_name old_full_name =
          [(wsTokens (joinSp old_full_name)).getD 0 "",
            (wsTokens (joinSp old_full_name)).getD 1 "",
            (wsTokens (joinSp old_full_name)).getD 2 ""]) ∧
    format_name ["Ivanov", "", "Petrovich"] = ["Ivanov", "Petrovich", ""] ∧
    format_name [] = ["", "", ""] ∧
    format_name ["a b c d"] = ["a", "b", "c"] := by
  exact ⟨fun old => ⟨rfl, rfl⟩, by decide, by decide, by decide⟩

/-- Claim C9 (witness): the general part evaluated at a concrete input with
more than three tokens. -/
theorem claim9_witness :
    (format_name ["Ivanov Ivan Petrovich extra"]).length = 3 ∧
    format_name ["Ivanov Ivan Petrovich extra"] =
      [(wsTokens (joinSp ["Ivanov Ivan Petrovich extra"])).getD 0 "",
        (wsTokens (joinSp ["Ivanov Ivan Petrovich extra"])).getD 1 "",
        (wsTokens (joinSp ["Ivanov Ivan Petrovich extra"])).getD 2 ""] :=
  claim9_format_name.1 ["Ivanov Ivan Petrovich extra"]

/- If the pattern matches nowhere in cs, the substitution copies cs. -/
theorem subAllGo_no_match : ∀ (fuel : Nat) (cs : List Char),
    hasMatch cs = false → subAllGo fuel cs = cs := by
  intro fuel
  induction fuel with
  | zero => intro cs _; rfl
  | succ n ih =>
    intro cs h
    cases cs with
    | nil => rfl
    | cons c cs' =>
      have h1 : (matchAt (c :: cs')).isSome = false ∧ hasMatch cs' = false := by
        simpa [hasMatch] using h
      have h2 : matchAt (c :: cs') = none := by
        cases hm : matchAt (c :: cs') with
        | none => rfl
        | some m => rw [hm] at h1; simp at h1
      simp [subAllGo, h2, ih cs' h1.2]

/-- Claim C4 (amended): format_phone is not idempotent: twice-applied to
"8 916 123 45 67" it yields "+7(916)123-45-67  " (two trailing spaces),
while one application yields "+7(916)123-45-67 ".  Inputs in which the
pattern matches nowhere pass through unchanged and hence are fixed points;
this no-match condition is sufficient but not necessary for idempotence —
the canonical "+7(916)123-45-67 доб.1234" contains a match and is
nevertheless a fixed point, because its match's replacement reproduces the
matched text. -/
theorem claim4_amended_idempotent_on_no_match :
    (∀ s : String, hasMatch s.data = false →
        format_phone (format_phone s) = format_phone s) ∧
    format_phone (format_phone "8 916 123 45 67") = "+7(916)123-45-67  " ∧
    hasMatch "+7(916)123-45-67 доб.1234".data = true ∧
    format_phone (format_phone "+7(916)123-45-67 доб.1234") =
      format_phone "+7(916)123-45-67 доб.1234" := by
  refine ⟨?_, by decide, by decide, by decide⟩
  intro s h
  have h1 : format_phone s = s := by
    show (⟨subAllGo s.data.length s.data⟩ : String) = s
    rw [subAllGo_no_match _ _ h]
  rw [h1]
  exact h1

/-- Claim C4 (witness): the amended theorem's no-match direction applied to
a concrete matchless input. -/
theorem claim4_witness :
    format_phone (format_phone "hello") = format_phone "hello" :=
  claim4_amended_idempotent_on_no_match.1 "hello" (by decide)

/- A successful backtracking choice comes from one of the alternatives. -/
theorem firstSome_eq_some : ∀ (l : List α) (k : α → Option β) (b : β),
    firstSome l k = some b → ∃ a ∈ l, k a = some b := by
  intro l k b
  induction l with
  | nil => intro h; simp [firstSome] at h
  | cons a rest ih =>
    intro h
    cases hk : k a with
    | some b' =>
      simp only [firstSome, hk] at h
      exact ⟨a, by simp, hk.trans h⟩
    | none =>
      simp only [firstSome, hk] at h
      obtain ⟨x, hx, hkx⟩ := ih h
      exact ⟨x, by simp [hx], hkx⟩

/- takeDigits n returns exactly n digits. -/
theorem takeDigits_spec : ∀ (n : Nat) (cs : List Char) (p : List Char × List Char),
    takeDigits n cs = some p → p.1.length = n ∧ p.1.all Char.isDigit = true := by
  intro n
  induction n with
  | zero =>
    intro cs p h
    obtain rfl : ([], cs) = p := Option.some.inj h
    exact ⟨rfl, rfl⟩
  | succ n ih =>
    intro cs p h
    cases cs with
    | nil => simp [takeDigits] at h
    | cons c cs' =>
      simp only [takeDigits] at h
      split at h
      next hd =>
        rw [Option.map_eq_some'] at h
        obtain ⟨q, hq, rfl⟩ := h
        obtain ⟨h1, h2⟩ := ih cs' q hq
        exact ⟨by simp [h1], by simp [List.all_cons, h2, hd]⟩
      next => cases h

/- The dot of the marker never matches a newline. -/
theorem extTail_ne_newline : ∀ (b : List Char) (c : Char) (b2 : List Char),
    extTail b = some (c, b2) → c ≠ '\n' := by
  intro b c b2 h
  unfold extTail at h
  split at h
  · split at h
    · cases h
    · next hc =>
      obtain ⟨rfl, rfl⟩ : _ ∧ _ := by simpa using h
      exact hc
  · cases h

/- Whenever the extension group participates in a match, the captured
marker (group 7) is the three lowercase letters д о б followed by one
arbitrary non-newline character, and group 8 is exactly 4 digits. -/
theorem extMatch_marker : ∀ cs g7 g8 r : List Char,
    extMatch cs = some (g7, g8, r) →
    g7.length = 4 ∧ g7.take 3 = ['д', 'о', 'б'] ∧ g7.getD 3 ' ' ≠ '\n' ∧
      g8.length = 4 ∧ g8.all Char.isDigit = true := by
  intro cs g7 g8 r h
  unfold extMatch at h
  obtain ⟨a, _, h⟩ := firstSome_eq_some _ _ _ h
  obtain ⟨b, _, h⟩ := firstSome_eq_some _ _ _ h
  cases het : extTail b with
  | none => simp [het] at h
  | some p =>
    obtain ⟨c, b2⟩ := p
    simp only [het] at h
    obtain ⟨d, _, h⟩ := firstSome_eq_some _ _ _ h
    rw [Option.bind_eq_some] at h
    obtain ⟨p8, hp8, h⟩ := h
    obtain ⟨f, _, h⟩ := firstSome_eq_some _ _ _ h
    have hc : c ≠ '\n' := extTail_ne_newline b c b2 het
    obtain ⟨hl8, hall8⟩ := takeDigits_spec 4 d p8 hp8
    injection h with h'
    injection h' with h1 h23
    injection h23 with h2 h3
    subst h1
    subst h2
    exact ⟨rfl, rfl, by simpa using hc, hl8, hall8⟩

/-- Claim C6 (amended): the extension group participates exactly when the
matched text carries the lowercase, case-sensitive letters "доб" followed by
ONE arbitrary non-newline character (the period of the spec's marker is an
unescaped regex dot) and 4 digits; the captured marker has that shape in
every case.  The already-canonical input with a real "доб." is returned
unchanged, and the uppercase marker "ДОБ." does not trigger an extension
(its text is left behind after the always-emitted space, giving a double
space). -/
theorem claim6_amended_marker_shape :
    (∀ cs g7 g8 r : List Char, extMatch cs = some (g7, g8, r) →
        g7.length = 4 ∧ g7.take 3 = ['д', 'о', 'б'] ∧ g7.getD 3 ' ' ≠ '\n' ∧
          g8.length = 4 ∧ g8.all Char.isDigit = true) ∧
    format_phone "+7(916)123-45-67 доб.1234" = "+7(916)123-45-67 доб.1234" ∧
    format_phone "8 916 123 45 67 ДОБ.1234" = "+7(916)123-45-67  ДОБ.1234" :=
  ⟨extMatch_marker, by decide, by decide⟩

/-- Claim C6 (witness): the marker-shape statement applied to the concrete
extension text " доб.1234", whose match captures marker "доб." and digits
"1234". -/
theorem claim6_witness :
    "доб.".data.length = 4 ∧ "доб.".data.take 3 = ['д', 'о', 'б'] ∧
      "доб.".data.getD 3 ' ' ≠ '\n' ∧ "1234".data.length = 4 ∧
      "1234".data.all Char.isDigit = true :=
  claim6_amended_marker_shape.1 " доб.1234".data "доб.".data "1234".data [] (by decide)

/- getD after set at the written index. -/
theorem getD_set_eq : ∀ (l : List α) (i : Nat) (x d : α),
    i < l.length → (l.set i x).getD i d = x := by
  intro l
  induction l with
  | nil => intro i x d h; simp at h
  | cons a t ih =>
    intro i x d h
    cases i with
    | zero => rfl
    | succ n =>
      simp only [List.set_cons_succ, List.getD_cons_succ]
      exact ih n x d (by simpa using h)

/- getD after set at a different index. -/
theorem getD_set_ne : ∀ (l : List α) (i j : Nat) (x d : α),
    i ≠ j → (l.set i x).getD j d = l.getD j d := by
  intro l
  induction l with
  | nil => intro i j x d h; cases i <;> rfl
  | cons a t ih =>
    intro i j x d h
    cases i with
    | zero =>
      cases j with
      | zero => exact absurd rfl h
      | succ m => rfl
    | succ n =>
      cases j with
      | zero => rfl
      | succ m =>
        simp only [List.set_cons_succ, List.getD_cons_succ]
        exact ih n m x d (by omega)

/- Writing back the value already present changes nothing. -/
theorem set_getD_self : ∀ (l : List α) (i : Nat) (d : α),
    i < l.length → l.set i (l.getD i d) = l := by
  intro l
  induction l with
  | nil => intro i d h; simp at h
  | cons a t ih =>
    intro i d h
    cases i with
    | zero => rfl
    | succ n =>
      simp only [List.getD_cons_succ, List.set_cons_succ]
      rw [ih n d (by simpa using h)]

/- Reading every position of a list reproduces it. -/
theorem map_range_getD : ∀ (l : List α) (d : α),
    (List.range l.length).map (fun i => l.getD i d) = l := by
  intro l d
  induction l with
  | nil => rfl
  | cons a t ih =>
    rw [List.length_cons, List.range_succ_eq_map, List.map_cons, List.map_map]
    simp only [Function.comp_def, List.getD_cons_zero, List.getD_cons_succ]
    rw [ih]

/- A position below the length reads an element of the list. -/
theorem getD_mem : ∀ (l : List α) (i : Nat) (d : α),
    i < l.length → l.getD i d ∈ l := by
  intro l
  induction l with
  | nil => intro i d h; simp at h
  | cons a t ih =>
    intro i d h
    cases i with
    | zero => simp
    | succ n =>
      simp only [List.getD_cons_succ]
      exact List.mem_cons_of_mem a (ih n d (by simpa using h))

/- The row produced by overwriting, at each column of cols, the current
row's cell with the duplicate's cell when the latter is non-empty. -/
def updCols (cur dup : List String) (cols : List Nat) : List String :=
  (List.range cur.length).map
    (fun c => if c ∈ cols ∧ dup.getD c "" ≠ "" then dup.getD c "" else cur.getD c "")

theorem updCols_nil (cur dup : List String) : updCols cur dup [] = cur := by
  unfold updCols
  rw [List.map_congr_left (g := fun c => cur.getD c "")]
  · exact map_range_getD cur ""
  · intro x _
    simp

theorem updCols_cons_skip (cur dup : List String) (c : Nat) (cs : List Nat)
    (h : dup.getD c "" = "") : updCols cur dup cs = updCols cur dup (c :: cs) := by
  unfold updCols
  apply List.map_congr_left
  intro x _
  by_cases hxc : x = c
  · subst hxc
    rw [if_neg (fun hh => hh.2 h), if_neg (fun hh => hh.2 h)]
  · by_cases hcond : x ∈ cs ∧ dup.getD x "" ≠ ""
    · rw [if_pos hcond, if_pos ⟨List.mem_cons_of_mem c hcond.1, hcond.2⟩]
    · rw [if_neg hcond,
        if_neg (fun hh => hcond ⟨(List.mem_cons.mp hh.1).resolve_left hxc, hh.2⟩)]

theorem updCols_cons_write (cur dup : List String) (c : Nat) (cs : List Nat)
    (h : dup.getD c "" ≠ "") :
    updCols (cur.set c (dup.getD c "")) dup cs = updCols cur dup (c :: cs) := by
  unfold updCols
  rw [List.length_set]
  apply List.map_congr_left
  intro x hx
  rw [List.mem_range] at hx
  by_cases hxc : x = c
  · subst hxc
    rw [if_pos (⟨List.mem_cons_self x cs, h⟩ : x ∈ x :: cs ∧ dup.getD x "" ≠ "")]
    by_cases hcs : x ∈ cs
    · rw [if_pos ⟨hcs, h⟩]
    · rw [if_neg (fun hh => hcs hh.1)]
      exact getD_set_eq cur x _ _ hx
  · rw [getD_set_ne cur c x _ _ (fun hcx => hxc hcx.symm)]
    by_cases hcond : x ∈ cs ∧ dup.getD x "" ≠ ""
    · rw [if_pos hcond, if_pos ⟨List.mem_cons_of_mem c hcond.1, hcond.2⟩]
    · rw [if_neg hcond,
        if_neg (fun hh => hcond ⟨(List.mem_cons.mp hh.1).resolve_left hxc, hh.2⟩)]

/- The merge loop equals a single write of the policy row: under a fixed
duplicate row (distinct from the origin row), processing cols sequentially
produces exactly updCols of the origin row. -/
theorem mergeCols_spec : ∀ (cols : List Nat) (t : List (List String)) (ro rd : Nat)
    (dup : List String),
    ro ≠ rd → ro < t.length → rd < t.length → t.getD rd [] = dup →
    (∀ c ∈ cols, c < dup.length) →
    mergeCols t ro rd cols = (t.set ro (updCols (t.getD ro []) dup cols), none) := by
  intro cols
  induction cols with
  | nil =>
    intro t ro rd dup _ hro _ _ _
    simp only [mergeCols, updCols_nil]
    rw [set_getD_self t ro [] hro]
  | cons c cs ih =>
    intro t ro rd dup hne hro hrd hdup hc
    have hcd : c < dup.length := hc c (List.mem_cons_self c cs)
    have hcs : ∀ x ∈ cs, x < dup.length := fun x hx => hc x (List.mem_cons_of_mem c hx)
    simp only [mergeCols]
    rw [if_pos hrd, hdup, if_pos hcd]
    by_cases hv : dup.getD c "" ≠ ""
    · rw [if_pos hv]
      have hset : (t.set ro ((t.getD ro []).set c (dup.getD c ""))).getD rd [] = dup := by
        rw [getD_set_ne t ro rd _ _ hne]
        exact hdup
      rw [ih (t.set ro ((t.getD ro []).set c (dup.getD c ""))) ro rd dup hne
        (by simpa using hro) (by simpa using hrd) hset hcs]
      rw [getD_set_eq t ro _ _ hro]
      rw [List.set_set]
      rw [updCols_cons_write (t.getD ro []) dup c cs hv]
    · rw [if_neg hv]
      rw [ih t ro rd dup hne hro hrd hdup hcs]
      have hv' : dup.getD c "" = "" := by simpa using hv
      rw [updCols_cons_skip (t.getD ro []) dup c cs hv']

/- On the columns 2 .. width, updCols is exactly the spec's merge policy. -/
theorem updCols_range_policy (orig dup : List String) (h2 : 2 ≤ orig.length) :
    updCols orig dup (List.range' 2 (orig.length - 2)) = mergeRowPolicy orig dup := by
  unfold updCols mergeRowPolicy
  apply List.map_congr_left
  intro x hx
  rw [List.mem_range] at hx
  by_cases hc : 2 ≤ x ∧ dup.getD x "" ≠ ""
  · rw [if_pos ⟨List.mem_range'_1.mpr ⟨hc.1, by omega⟩, hc.2⟩, if_pos hc]
  · rw [if_neg (fun hh => hc ⟨(List.mem_range'_1.mp hh.1).1, hh.2⟩), if_neg hc]

/-- Claim C8: merging a duplicate row into a distinct origin row (as the
scan does: start_column = 2, end_column = None) succeeds on equal-width
rows of width at least 2 and replaces exactly the origin row with the
policy row — every column from 2 up takes the duplicate's value when it is
non-empty and keeps the origin's value otherwise, columns 0 and 1 keep the
origin's values, and no other row of the table changes (only position i is
set). -/
theorem claim8_merge_policy : ∀ (t : List (List String)) (i j : Nat)
    (orig dup : List String),
    i < t.length → j < t.length → i ≠ j →
    t.getD i [] = orig → t.getD j [] = dup →
    dup.length = orig.length → 2 ≤ orig.length →
    merging_contact_lines t i j (some 2) none =
      (t.set i (mergeRowPolicy orig dup), none) := by
  intro t i j orig dup hi hj hij horig hdup hlen h2
  unfold merging_contact_lines
  rw [if_pos hi, horig]
  have hcs2 : clampStart (some 2) = (2 : Int) := by decide
  have hce : clampEnd none orig.length = (orig.length : Int) := rfl
  rw [hcs2, hce]
  have hng : ¬((2 : Int) > (orig.length : Int)) := not_lt.mpr (by exact_mod_cast h2)
  rw [if_neg hng]
  have h2n : ((2 : Int)).toNat = 2 := rfl
  have hwn : ((orig.length : Int)).toNat = orig.length := Int.toNat_ofNat orig.length
  rw [h2n, hwn]
  have hbound : ∀ c ∈ List.range' 2 (orig.length - 2), c < dup.length := by
    intro c hcm
    rw [List.mem_range'_1] at hcm
    rw [hlen]
    omega
  rw [mergeCols_spec (List.range' 2 (orig.length - 2)) t i j dup hij hi hj hdup hbound]
  rw [horig]
  rw [updCols_range_policy orig dup h2]

/-- Claim C8 (witness): merging row 1 into row 0 of a concrete 2x4 table —
column 2 is empty in the duplicate so the origin keeps "c", column 3 is
overwritten with "x". -/
theorem claim8_witness :
    merging_contact_lines [["a", "b", "c", "d"], ["a", "b", "", "x"]] 0 1 (some 2) none =
      ([["a", "b", "c", "d"], ["a", "b", "", "x"]].set 0
        (mergeRowPolicy ["a", "b", "c", "d"] ["a", "b", "", "x"]), none) :=
  claim8_merge_policy [["a", "b", "c", "d"], ["a", "b", "", "x"]] 0 1
    ["a", "b", "c", "d"] ["a", "b", "", "x"] (by decide) (by decide) (by decide)
    (by decide) (by decide) (by decide) (by decide)

/- The merge loop never raises while every requested column is inside the
duplicate row (the duplicate row's width is preserved by the writes, even
when origin and duplicate coincide). -/
theorem mergeCols_snd_none : ∀ (cols : List Nat) (t : List (List String)) (ro rd : Nat),
    rd < t.length → (∀ c ∈ cols, c < (t.getD rd []).length) →
    (mergeCols t ro rd cols).2 = none := by
  intro cols
  induction cols with
  | nil => intro t ro rd _ _; rfl
  | cons c cs ih =>
    intro t ro rd hrd hc
    have hcd : c < (t.getD rd []).length := hc c (List.mem_cons_self c cs)
    simp only [mergeCols]
    rw [if_pos hrd, if_pos hcd]
    by_cases hv : (t.getD rd []).getD c "" ≠ ""
    · rw [if_pos hv]
      apply ih
      · simpa using hrd
      · intro x hx
        have hlen2 : ((t.set ro ((t.getD ro []).set c ((t.getD rd []).getD c ""))).getD
            rd []).length = (t.getD rd []).length := by
          by_cases hro : ro = rd
          · subst hro
            rw [getD_set_eq t ro _ _ hrd]
            simp
          · rw [getD_set_ne t ro rd _ _ hro]
        rw [hlen2]
        exact hc x (List.mem_cons_of_mem c hx)
    · rw [if_neg hv]
      exact ih t ro rd hrd (fun x hx => hc x (List.mem_cons_of_mem c hx))

/-- Claim C10: on an equal-width table with valid row indices,
merging_contact_lines first clamps start_column (None or negative to 0) and
end_column (None or beyond the width to the width), raises its IndexError
exactly when the clamped start exceeds the clamped end, and in that case
returns the table unchanged; clamped-away out-of-range bounds alone never
produce an error. -/
theorem claim10_clamping : ∀ (t : List (List String)) (i j : Nat)
    (sc ec : Option Int) (w : Nat),
    (∀ r ∈ t, r.length = w) → i < t.length → j < t.length →
    (((merging_contact_lines t i j sc ec).2.isSome = true) ↔
      clampStart sc > clampEnd ec w) ∧
    (clampStart sc > clampEnd ec w →
      merging_contact_lines t i j sc ec =
        (t, some "start_column must be less than end_column")) := by
  intro t i j sc ec w hw hi hj
  have hwi : (t.getD i []).length = w := hw _ (getD_mem t i [] hi)
  have hwj : (t.getD j []).length = w := hw _ (getD_mem t j [] hj)
  unfold merging_contact_lines
  rw [if_pos hi, hwi]
  by_cases hse : clampStart sc > clampEnd ec w
  · rw [if_pos hse]
    exact ⟨by simp [hse], fun _ => rfl⟩
  · rw [if_neg hse]
    have hE : (clampEnd ec w).toNat ≤ w := by
      cases ec with
      | none => simp [clampEnd]
      | some e =>
        simp only [clampEnd]
        by_cases he : e > (w : Int)
        · rw [if_pos he]
          simp
        · rw [if_neg he]
          rw [Int.toNat_le]
          exact not_lt.mp he
    have hnone : (mergeCols t i j (List.range' (clampStart sc).toNat
        ((clampEnd ec w).toNat - (clampStart sc).toNat))).2 = none := by
      apply mergeCols_snd_none _ t i j hj
      intro c hcmem
      rw [List.mem_range'_1] at hcmem
      rw [hwj]
      omega
    refine ⟨?_, fun hcontra => absurd hcontra hse⟩
    rw [hnone]
    simp [hse]

/-- Claim C10 (witness): a start_column beyond the row width with
end_column None — the clamped start 5 exceeds the clamped end 2, so the
call errors and leaves the table unchanged. -/
theorem claim10_witness :
    ((merging_contact_lines [["a", "b"], ["c", "d"]] 0 1 (some 5) none).2.isSome = true) ∧
    merging_contact_lines [["a", "b"], ["c", "d"]] 0 1 (some 5) none =
      ([["a", "b"], ["c", "d"]], some "start_column must be less than end_column") := by
  have h := claim10_clamping [["a", "b"], ["c", "d"]] 0 1 (some 5) none 2
    (by decide) (by decide) (by decide)
  exact ⟨h.1.mpr (by decide), h.2 (by decide)⟩
